import Mathlib

/-!
Shallow embedding of the Ayaka execution and fallback engine
(`utils/ayaka-runtime/src/context.rs` and `utils/ayaka-model/src/view_model.rs`),
with theorems settling the specification claims about the cursor-advance state
machine, the bilingual merge algorithm, switch selection, and the history model.

Types that live in sibling crates of the repository (`ayaka-script-types`,
`ayaka-bindings-types`, the `fallback` crate) are not part of the given source
tree; where their behavior decides nothing, they are modelled from the
specification and marked as such in their doc comments.  Everything in
`context.rs` and `view_model.rs` is translated directly.
-/

namespace Ayaka

/-- Modelled from the spec: the `ScalarValue` (`RawValue` in the code) from
`ayaka-script-types` — a unit, boolean, integer or string scalar. -/
inductive RawValue where
  | unit
  | bool (b : Bool)
  | num (n : Int)
  | str (s : String)
deriving DecidableEq

/-- Modelled from the spec: boolean coercion of a scalar value
(`RawValue::get_bool`), used when reading per-option enabled flags. -/
def RawValue.getBool : RawValue → Bool
  | .unit => false
  | .bool b => b
  | .num n => n ≠ 0
  | .str s => s ≠ ""

/-- Modelled from the spec: string rendering of a scalar value
(`RawValue::get_str`), used to render resource and variable lookups. -/
def RawValue.getStr : RawValue → String
  | .unit => ""
  | .bool b => if b then "true" else "false"
  | .num n => toString n
  | .str s => s

/-- Variable map `VarMap = HashMap<String, RawValue>`, modelled as an
association list; the operations below mirror the Rust `HashMap` operations
used by the engine (`get`, `insert`, `remove`, `extend`). -/
def VarMap : Type := List (String × RawValue)

instance : DecidableEq VarMap := by
  unfold VarMap
  infer_instance

/-- Lookup of a key in a variable map (`HashMap::get`). -/
def lookup : VarMap → String → Option RawValue
  | [], _ => none
  | (k, v) :: rest, key => if key = k then some v else lookup rest key

/-- Insertion into a variable map (`HashMap::insert`): an existing entry for
the key is replaced, otherwise the entry is appended. -/
def insert : VarMap → String → RawValue → VarMap
  | [], key, val => [(key, val)]
  | (k, v) :: rest, key, val =>
      if k = key then (k, val) :: rest else (k, v) :: insert rest key val

/-- Removal of a key from a variable map (`HashMap::remove`). -/
def eraseKey : VarMap → String → VarMap
  | [], _ => []
  | (k, v) :: rest, key =>
      if k = key then eraseKey rest key else (k, v) :: eraseKey rest key

/-- Extension of a variable map by another (`HashMap::extend`): every entry of
the second map is inserted into the first, replacing entries with equal keys. -/
def extend (m m2 : VarMap) : VarMap :=
  m2.foldl (fun acc kv => insert acc kv.1 kv.2) m

theorem lookup_insert (m : VarMap) (k : String) (v : RawValue) (key : String) :
    lookup (insert m k v) key = if key = k then some v else lookup m key := by
  induction m with
  | nil => simp [insert, lookup]
  | cons hd tl ih =>
      obtain ⟨k0, v0⟩ := hd
      by_cases h0 : k0 = k
      · subst h0
        by_cases hk : key = k0 <;> simp [insert, lookup, hk]
      · by_cases hk : key = k0
        · subst hk
          simp [insert, lookup, h0]
        · simp [insert, lookup, h0, hk, ih]

theorem lookup_eraseKey (m : VarMap) (k : String) (key : String) :
    lookup (eraseKey m k) key = if key = k then none else lookup m key := by
  induction m with
  | nil => simp [eraseKey, lookup]
  | cons hd tl ih =>
      obtain ⟨k0, v0⟩ := hd
      by_cases h0 : k0 = k
      · subst h0
        by_cases hk : key = k0
        · subst hk
          simp [eraseKey, lookup, ih]
        · simp [eraseKey, lookup, hk, ih]
      · by_cases hk : key = k0
        · subst hk
          simp [eraseKey, lookup, h0]
        · simp [eraseKey, lookup, h0, hk, ih]

theorem lookup_none_of_not_mem_keys (m : VarMap) (key : String)
    (h : key ∉ m.map Prod.fst) : lookup m key = none := by
  induction m with
  | nil => rfl
  | cons hd tl ih =>
      obtain ⟨k0, v0⟩ := hd
      simp only [List.map_cons, List.mem_cons] at h
      push_neg at h
      simp [lookup, h.1, ih h.2]

theorem lookup_extend (p : VarMap) (b : VarMap) (key : String)
    (hb : (b.map Prod.fst).Nodup) :
    lookup (extend p b) key =
      match lookup b key with
      | some v => some v
      | none => lookup p key := by
  induction b generalizing p with
  | nil => simp [extend, lookup]
  | cons hd tl ih =>
      obtain ⟨k0, v0⟩ := hd
      simp only [List.map_cons, List.nodup_cons] at hb
      have step : extend p ((k0, v0) :: tl) = extend (insert p k0 v0) tl := rfl
      rw [step, ih (insert p k0 v0) hb.2]
      by_cases hk : key = k0
      · subst hk
        have : lookup tl key = none :=
          lookup_none_of_not_mem_keys tl key hb.1
        simp [lookup, this, lookup_insert]
      · simp [lookup, hk, lookup_insert]

/-- Cursor into the story (`RawContext` from `ayaka-bindings-types` as used
throughout `context.rs`): base paragraph id, paragraph id, act index and the
local variable scratchpad. -/
structure RawContext where
  cur_base_para : String
  cur_para : String
  cur_act : Nat
  locals : VarMap
deriving DecidableEq

/-- Mutable state of a `Context` beyond the immutable game data: the cursor,
the enabled flags of the pending switch line, and the variable buffer of the
last custom line (`ctx`, `switches`, `vars` fields of `Context`). -/
structure CtxState where
  ctx : RawContext
  switches : List Bool
  vars : VarMap
deriving DecidableEq

/-- Locals after a valid switch selection: insert `locals["?"] = i`, then
remove the stringified index keys `0 .. switches.len() - 1`. -/
def switchLocals (st : CtxState) (i : Nat) : VarMap :=
  (List.range st.switches.length).foldl
    (fun m j => eraseKey m (Nat.repr j)) (insert st.ctx.locals "?" (.num i))

/-- Selection of a switch option (`Context::switch`): both assertions —
index in range and option enabled — must hold, else the call panics
(modelled as `none`); on success `locals["?"]` is set to the index and every
stringified index of the current switch list is removed from `locals`. -/
def switch (st : CtxState) (i : Nat) : Option CtxState :=
  if i < st.switches.length ∧ st.switches.getD i false = true then
    some { st with ctx := { st.ctx with locals := switchLocals st i } }
  else none

theorem digitChar_isDigit (d : Nat) (h : d < 10) :
    (Nat.digitChar d).isDigit = true := by
  interval_cases d <;> decide

theorem toDigitsCore_digits (fuel : Nat) : ∀ (n : Nat) (ds : List Char),
    (∀ c ∈ ds, c.isDigit = true) →
    ∀ c ∈ Nat.toDigitsCore 10 fuel n ds, c.isDigit = true := by
  induction fuel with
  | zero =>
      intro n ds hds c hc
      simpa [Nat.toDigitsCore] using hds c hc
  | succ fuel ih =>
      intro n ds hds c hc
      have hdigit : (Nat.digitChar (n % 10)).isDigit = true :=
        digitChar_isDigit _ (Nat.mod_lt n (by norm_num))
      simp only [Nat.toDigitsCore] at hc
      by_cases h0 : n / 10 = 0
      · simp only [h0, if_true] at hc
        rcases List.mem_cons.mp hc with rfl | hmem
        · exact hdigit
        · exact hds c hmem
      · simp only [h0, if_false] at hc
        refine ih (n / 10) (Nat.digitChar (n % 10) :: ds) ?_ c hc
        intro c' hc'
        rcases List.mem_cons.mp hc' with rfl | hmem
        · exact hdigit
        · exact hds c' hmem

theorem natRepr_ne_question (n : Nat) : Nat.repr n ≠ "?" := by
  intro h
  have hdata : Nat.toDigits 10 n = ['?'] := by
    have := congrArg String.data h
    simpa [Nat.repr, Nat.toDigits, List.asString] using this
  have hmem : '?' ∈ Nat.toDigitsCore 10 (n + 1) n [] := by
    have : '?' ∈ Nat.toDigits 10 n := by simp [hdata]
    simpa [Nat.toDigits] using this
  have := toDigitsCore_digits (n + 1) n [] (by simp) '?' hmem
  simp [Char.isDigit] at this

theorem lookup_foldl_eraseKey (keys : List String) (m : VarMap) (key : String) :
    lookup (keys.foldl eraseKey m) key =
      if key ∈ keys then none else lookup m key := by
  induction keys generalizing m with
  | nil => simp
  | cons k0 rest ih =>
      simp only [List.foldl_cons]
      rw [ih]
      by_cases hk : key = k0
      · subst hk
        simp [lookup_eraseKey]
      · simp [lookup_eraseKey, hk]

/-- C7: selecting switch option `i` succeeds only when `i` is in range of the
current switch list and enabled — otherwise the call is rejected (an
assertion failure, modelled as `none`); on a valid selection `locals["?"]` is
set to `i` and every stringified index of the current switch list is removed
from `locals`. -/
theorem switchLocals_foldl_map (st : CtxState) (i : Nat) :
    switchLocals st i =
      ((List.range st.switches.length).map Nat.repr).foldl eraseKey
        (insert st.ctx.locals "?" (.num i)) :=
  (List.foldl_map Nat.repr eraseKey _ _).symm

theorem lookup_switchLocals_q (st : CtxState) (i : Nat) :
    lookup (switchLocals st i) "?" = some (.num i) := by
  rw [switchLocals_foldl_map, lookup_foldl_eraseKey]
  have hnot : "?" ∉ (List.range st.switches.length).map Nat.repr := by
    intro hmem
    rcases List.mem_map.mp hmem with ⟨j, _, hj⟩
    exact natRepr_ne_question j hj
  rw [if_neg hnot, lookup_insert]
  simp

theorem lookup_switchLocals_idx (st : CtxState) (i j : Nat)
    (hj : j < st.switches.length) :
    lookup (switchLocals st i) (Nat.repr j) = none := by
  rw [switchLocals_foldl_map, lookup_foldl_eraseKey]
  have hmem : Nat.repr j ∈ (List.range st.switches.length).map Nat.repr :=
    List.mem_map.mpr ⟨j, List.mem_range.mpr hj, rfl⟩
  rw [if_pos hmem]

theorem lookup_switchLocals_other (st : CtxState) (i : Nat) (k : String)
    (hq : k ≠ "?") (hidx : ∀ j, j < st.switches.length → k ≠ Nat.repr j) :
    lookup (switchLocals st i) k = lookup st.ctx.locals k := by
  rw [switchLocals_foldl_map, lookup_foldl_eraseKey]
  have hnot : k ∉ (List.range st.switches.length).map Nat.repr := by
    intro hmem
    rcases List.mem_map.mp hmem with ⟨j, hjr, hj⟩
    exact hidx j (List.mem_range.mp hjr) hj.symm
  rw [if_neg hnot, lookup_insert, if_neg hq]

theorem c7_switch_selection (st : CtxState) (i : Nat) :
    (¬ (i < st.switches.length ∧ st.switches.getD i false = true) →
      switch st i = none) ∧
    (∀ st', switch st i = some st' →
      lookup st'.ctx.locals "?" = some (.num i) ∧
      ∀ j, j < st.switches.length →
        lookup st'.ctx.locals (Nat.repr j) = none) := by
  constructor
  · intro h
    unfold switch
    rw [if_neg h]
  · intro st' hs
    unfold switch at hs
    by_cases h : i < st.switches.length ∧ st.switches.getD i false = true
    · rw [if_pos h] at hs
      simp only [Option.some.injEq] at hs
      subst hs
      exact ⟨lookup_switchLocals_q st i, fun j hj => lookup_switchLocals_idx st i j hj⟩
    · rw [if_neg h] at hs
      exact absurd hs (by simp)

/-- C7 (witness): selecting index 1 of a two-option switch list with key
`"0"` pending in the locals sets `locals["?"] = 1` and clears the stringified
option indices. -/
theorem c7_switch_selection_witness :
    lookup ([("?", RawValue.num 1)] : VarMap) "?" = some (.num 1) ∧
    lookup ([("?", RawValue.num 1)] : VarMap) (Nat.repr 0) = none :=
  have h := (c7_switch_selection
      ⟨⟨"p", "p", 0, [("0", RawValue.bool false)]⟩, [true, true], []⟩ 1).2
      ⟨⟨"p", "p", 0, [("?", RawValue.num 1)]⟩, [true, true], []⟩ (by rfl)
  ⟨h.1, h.2 0 (by decide)⟩

/-- C10: a valid `switch(i)` call modifies only the locals entries keyed
`"?"` or a stringified index of the current switch list; every other locals
entry, the other cursor fields and the remaining context state are left
unchanged. -/
theorem c10_switch_frame (st : CtxState) (i : Nat) (st' : CtxState)
    (hs : switch st i = some st') :
    st'.ctx.cur_base_para = st.ctx.cur_base_para ∧
    st'.ctx.cur_para = st.ctx.cur_para ∧
    st'.ctx.cur_act = st.ctx.cur_act ∧
    st'.switches = st.switches ∧
    st'.vars = st.vars ∧
    ∀ k, k ≠ "?" → (∀ j, j < st.switches.length → k ≠ Nat.repr j) →
      lookup st'.ctx.locals k = lookup st.ctx.locals k := by
  unfold switch at hs
  by_cases h : i < st.switches.length ∧ st.switches.getD i false = true
  · rw [if_pos h] at hs
    simp only [Option.some.injEq] at hs
    subst hs
    exact ⟨rfl, rfl, rfl, rfl, rfl,
      fun k hq hidx => lookup_switchLocals_other st i k hq hidx⟩
  · rw [if_neg h] at hs
    exact absurd hs (by simp)

/-- C10 (witness): a concrete valid selection leaves the unrelated locals
entry `"z"` with its original value. -/
theorem c10_switch_frame_witness :
    lookup ([("z", RawValue.str "v"), ("?", RawValue.num 0)] : VarMap) "z" =
      lookup ([("z", RawValue.str "v"), ("0", RawValue.bool false)] : VarMap) "z" :=
  (c10_switch_frame
      ⟨⟨"b", "p", 3, [("z", RawValue.str "v"), ("0", RawValue.bool false)]⟩, [true], []⟩ 0
      ⟨⟨"b", "p", 3, [("z", RawValue.str "v"), ("?", RawValue.num 0)]⟩, [true], []⟩
      (by rfl)).2.2.2.2.2 "z" (by decide)
    (by
      intro j hj
      have hj1 : j < 1 := by simpa using hj
      interval_cases j
      decide)

/-- Modelled from the spec: a rendered switch option `{ text, enabled }`. -/
structure Switch where
  text : String
  enabled : Bool
deriving DecidableEq

/-- Modelled from the spec: one rendered fragment of an action text — a run of
plain characters or an opaque block (`ActionLine` in `ayaka-bindings-types`). -/
inductive ActionLine where
  | chars (s : String)
  | block (s : String)
deriving DecidableEq

/-- String content of a fragment (`ActionLine::as_str`). -/
def ActionLine.asStr : ActionLine → String
  | .chars s => s
  | .block s => s

/-- Modelled from the spec: the materialized text of an `Action::Text` — the
fragment sequence, optional character key and name, and the side-channel
variable set (`ActionText` in `ayaka-bindings-types`). -/
structure ActionText where
  text : List ActionLine
  ch_key : Option String
  character : Option String
  vars : VarMap
deriving DecidableEq

/-- Empty action text (`ActionText::default`). -/
def ActionText.default : ActionText := ⟨[], none, none, []⟩

/-- Modelled from the spec: appending literal characters to the fragment
accumulator (`ActionText::push_back_chars`). -/
def ActionText.pushBackChars (a : ActionText) (s : String) : ActionText :=
  { a with text := a.text ++ [.chars s] }

/-- Modelled from the spec: appending an opaque block to the fragment
accumulator (`ActionText::push_back_block`). -/
def ActionText.pushBackBlock (a : ActionText) (s : String) : ActionText :=
  { a with text := a.text ++ [.block s] }

/-- Flattening of an action text to a plain string (its `Display`). -/
def ActionText.toString (a : ActionText) : String :=
  a.text.foldl (fun acc l => acc ++ l.asStr) ""

/-- Modelled from the spec: the materialized `Action` handed to the rendering
side — narrative text, a switch menu, or custom variables. -/
inductive Action where
  | text (t : ActionText)
  | switches (s : List Switch)
  | custom (vars : VarMap)
deriving DecidableEq

/-- Modelled from the spec: the empty default `Action`. -/
def Action.default : Action := .text ActionText.default

/-- Discriminator telling whether two actions are the same variant. -/
def Action.sameVariant : Action → Action → Bool
  | .text _, .text _ => true
  | .switches _, .switches _ => true
  | .custom _, .custom _ => true
  | _, _ => false

/-- Per-option enabled update used by the `Switches` merge: the primary list
keeps its texts, the zipped prefix takes the enabled flags of the base list
(`for (item, item_base) in switches.iter_mut().zip(switches_base)`). -/
def mergeSwitches : List Switch → List Switch → List Switch
  | [], _ => []
  | s, [] => s
  | s :: rest, b :: brest => { s with enabled := b.enabled } :: mergeSwitches rest brest

/-- Merge of a `Fallback<Action>` pair (`Context::merge_action`); the first
argument is the primary-locale side, the second the secondary (base-locale)
side.  The combinator calls of the `Text` branch (`and_any`, `flatten`,
`fallback` from the `fallback` crate, absent from the source tree) are
modelled from the spec: fragments are the primary's if non-empty else the
secondary's, character key and name are primary-if-present-else-secondary,
variable maps are unioned with primary precedence. -/
def mergeAction : Option Action → Option Action → Except String Action
  | none, none => .ok Action.default
  | some action, none => .ok action
  | none, some action => .ok action
  | some action, some actionBase =>
      match action, actionBase with
      | .text a, .text b =>
          .ok (.text
            { text := if a.text.isEmpty then b.text else a.text
              ch_key := match a.ch_key with
                | some k => some k
                | none => b.ch_key
              character := match a.character with
                | some c => some c
                | none => b.character
              vars := extend b.vars a.vars })
      | .switches s, .switches sBase => .ok (.switches (mergeSwitches s sBase))
      | .custom vars, .custom varsBase => .ok (.custom (extend vars varsBase))
      | _, _ => .error "Mismatching action type"

theorem mergeSwitches_length : ∀ (ps bs : List Switch),
    (mergeSwitches ps bs).length = ps.length
  | [], bs => by cases bs <;> rfl
  | _ :: _, [] => rfl
  | _ :: rest, _ :: brest => by
      simp [mergeSwitches, mergeSwitches_length rest brest]

theorem mergeSwitches_get?_of_both : ∀ (ps bs : List Switch) (i : Nat)
    (si bi : Switch), ps.get? i = some si → bs.get? i = some bi →
    (mergeSwitches ps bs).get? i = some ⟨si.text, bi.enabled⟩
  | [], _, i, _, _, h1, _ => by simp at h1
  | _ :: _, [], i, _, _, _, h2 => by simp at h2
  | s :: _, b :: _, 0, si, bi, h1, h2 => by
      simp only [List.get?_cons_zero, Option.some.injEq] at h1 h2
      subst h1
      subst h2
      rfl
  | s :: rest, b :: brest, i + 1, si, bi, h1, h2 => by
      simp only [List.get?_cons_succ] at h1 h2
      simpa [mergeSwitches] using
        mergeSwitches_get?_of_both rest brest i si bi h1 h2

theorem mergeSwitches_get?_of_ge : ∀ (ps bs : List Switch) (i : Nat),
    bs.length ≤ i → (mergeSwitches ps bs).get? i = ps.get? i
  | [], bs, _, _ => by cases bs <;> rfl
  | _ :: _, [], _, _ => rfl
  | _ :: _, _ :: _, 0, h => by simp at h
  | _ :: rest, _ :: brest, i + 1, h => by
      simpa [mergeSwitches] using
        mergeSwitches_get?_of_ge rest brest i (Nat.le_of_succ_le_succ h)

/-- C1 (counterexample): merging two `Custom` actions does NOT keep the
primary locale's value on a common key.  At the concrete input where both
sides bind `"k"` — the primary to `1`, the secondary to `2` — the merged map
binds `"k"` to the secondary's `2`, because `vars.extend(vars_base)` lets the
base-locale entries overwrite the primary's. -/
theorem c1_custom_merge_counterexample :
    mergeAction (some (.custom [("k", .num 1)])) (some (.custom [("k", .num 2)])) =
      .ok (.custom [("k", .num 2)]) ∧
    lookup [("k", RawValue.num 2)] "k" = some (.num 2) ∧
    RawValue.num 2 ≠ RawValue.num 1 :=
  ⟨rfl, rfl, by decide⟩

/-- C1 (amended): merging two `Custom` actions unions the variable maps with
SECONDARY precedence: the merged map is `extend primary secondary`, whose
lookup yields the secondary's value on every key the secondary binds and the
primary's value only on keys absent from the secondary. -/
theorem c1_custom_merge (p b : VarMap) (key : String)
    (hb : (b.map Prod.fst).Nodup) :
    mergeAction (some (.custom p)) (some (.custom b)) = .ok (.custom (extend p b)) ∧
    lookup (extend p b) key =
      (match lookup b key with
       | some v => some v
       | none => lookup p key) :=
  ⟨rfl, lookup_extend p b key hb⟩

/-- C1 (witness): the amended merge theorem evaluated at a concrete pair of
maps sharing the key `"k"`. -/
theorem c1_custom_merge_witness :
    mergeAction (some (.custom [("k", .num 1), ("a", .str "x")]))
        (some (.custom [("k", .num 2)])) =
      .ok (.custom (extend [("k", .num 1), ("a", .str "x")] [("k", .num 2)])) ∧
    lookup (extend [("k", RawValue.num 1), ("a", RawValue.str "x")]
        [("k", RawValue.num 2)]) "k" = some (.num 2) :=
  have h := c1_custom_merge [("k", .num 1), ("a", .str "x")] [("k", .num 2)] "k"
    (by decide)
  ⟨h.1, by rw [h.2]; rfl⟩

/-- C3 (counterexample): it is not true that EVERY option of a merged
`Switches` action takes its enabled flag from the secondary locale.  With a
two-option primary and a one-option secondary whose only option is disabled,
the merged action's option at index `1` is enabled — the secondary has no
option at that index (`get? 1 = none`), so the flag is the primary's own. -/
theorem c3_switches_merge_counterexample :
    mergeAction (some (.switches [⟨"A", true⟩, ⟨"B", true⟩]))
        (some (.switches [⟨"X", false⟩])) =
      .ok (.switches [⟨"A", false⟩, ⟨"B", true⟩]) ∧
    ([⟨"X", false⟩] : List Switch).get? 1 = none ∧
    ([⟨"A", false⟩, ⟨"B", true⟩] : List Switch).get? 1 = some ⟨"B", true⟩ :=
  ⟨rfl, rfl, rfl⟩

/-- C3 (amended): merging two `Switches` actions keeps the primary's option
list (same length, texts from the primary); on every index where BOTH lists
have an option the enabled flag is the secondary's, and on indices beyond the
secondary's length the primary's option is kept unchanged, enabled flag
included. -/
theorem c3_switches_merge (ps bs : List Switch) :
    mergeAction (some (.switches ps)) (some (.switches bs)) =
      .ok (.switches (mergeSwitches ps bs)) ∧
    (mergeSwitches ps bs).length = ps.length ∧
    (∀ i si bi, ps.get? i = some si → bs.get? i = some bi →
      (mergeSwitches ps bs).get? i = some ⟨si.text, bi.enabled⟩) ∧
    (∀ i, bs.length ≤ i → (mergeSwitches ps bs).get? i = ps.get? i) :=
  ⟨rfl, mergeSwitches_length ps bs,
    fun i si bi h1 h2 => mergeSwitches_get?_of_both ps bs i si bi h1 h2,
    fun i h => mergeSwitches_get?_of_ge ps bs i h⟩

/-- C3 (witness): the amended switches-merge theorem evaluated at concrete
one-option lists. -/
theorem c3_switches_merge_witness :
    mergeAction (some (.switches [⟨"A", true⟩]))
        (some (.switches [⟨"X", false⟩])) =
      .ok (.switches (mergeSwitches [⟨"A", true⟩] [⟨"X", false⟩])) ∧
    (mergeSwitches [⟨"A", true⟩] [⟨"X", false⟩]).get? 0 = some ⟨"A", false⟩ :=
  have h := c3_switches_merge [⟨"A", true⟩] [⟨"X", false⟩]
  ⟨h.1, h.2.2.1 0 ⟨"A", true⟩ ⟨"X", false⟩ rfl rfl⟩

/-- C9: merging a `Fallback<Action>` pair returns the empty default `Action`
when both sides are absent, returns the present side unchanged when exactly
one is present, and fails with the fatal "Mismatching action type" error when
both are present with different variants. -/
theorem c9_merge_fallback_dispatch :
    mergeAction none none = .ok Action.default ∧
    (∀ a : Action, mergeAction (some a) none = .ok a) ∧
    (∀ a : Action, mergeAction none (some a) = .ok a) ∧
    (∀ a b : Action, Action.sameVariant a b = false →
      mergeAction (some a) (some b) = .error "Mismatching action type") := by
  refine ⟨rfl, fun a => rfl, fun a => rfl, ?_⟩
  intro a b h
  cases a <;> cases b <;> first
    | rfl
    | simp [Action.sameVariant] at h

/-- C9 (witness): the mismatched-variant branch of the merge theorem
evaluated at a `Switches` versus `Custom` pair. -/
theorem c9_merge_fallback_dispatch_witness :
    Action.sameVariant (.switches []) (.custom []) = false ∧
    mergeAction (some (.switches [])) (some (.custom [])) =
      .error "Mismatching action type" :=
  ⟨rfl, c9_merge_fallback_dispatch.2.2.2 (.switches []) (.custom []) rfl⟩

/-- Locale identifier; only its equality matters to the engine. -/
abbrev Locale := String

/-- Modelled from the spec: a sub-text node of a `TextNode` — a literal
character, a literal string, or a command with sub-text arguments
(`SubText` in `ayaka-script-types`). -/
inductive SubText where
  | chr (c : Char)
  | str (s : String)
  | cmd (name : String) (args : List SubText)

/-- Modelled from the spec: a `TextNode` — optional character tag and alias
plus the sub-text tree (`Text` in `ayaka-script-types`). -/
structure Text where
  ch_tag : Option String
  ch_alias : Option String
  sub_texts : List SubText

/-- Modelled from the spec: one scripted line — empty, narrative text, a
switch menu, or a custom command given as an ordered property map
(`Line` in `ayaka-script-types`). -/
inductive Line where
  | empty
  | text (t : Text)
  | switch (switches : List String)
  | custom (props : VarMap)

/-- Modelled from the spec: a paragraph — optional title, ordered lines, and
the optional next-paragraph expression evaluated when the lines run out. -/
structure Paragraph where
  title : Option String
  texts : List Line
  next : Option Text

/-- Generic association-list lookup, standing in for the `HashMap` lookups of
the static story tables. -/
def assocFind {α β : Type} [DecidableEq α] : List (α × β) → α → Option β
  | [], _ => none
  | (k, v) :: rest, key => if key = k then some v else assocFind rest key

/-- Static story model: the base language, the locale-keyed paragraph tables
(keyed by the pair of base paragraph id and paragraph id) and the
locale-keyed resource tables. -/
structure Game where
  base_lang : Locale
  paras : List (Locale × List ((String × String) × Paragraph))
  res : List (Locale × VarMap)

/-- Modelled from the spec: `find_paragraph(locale, base_id, id)` — resolve
the locale's paragraph table, then the paragraph keyed by `(base_id, id)`. -/
def findPara (g : Game) (loc : Locale) (base id : String) : Option Paragraph :=
  (assocFind g.paras loc).bind (fun m => assocFind m (base, id))

/-- Modelled from the spec: resource lookup through
`find_resource_fallback(locale)` — the key is looked up in the requested
locale's resource table, falling back to the base locale's table. -/
def findRes (g : Game) (loc : Locale) (key : String) : Option RawValue :=
  match (assocFind g.res loc).bind (fun m => lookup m key) with
  | some v => some v
  | none => (assocFind g.res g.base_lang).bind (fun m => lookup m key)

/-- Result of a line-command handler: locals to merge into the cursor and
the vars becoming the line's rendered `Custom` vars
(`LineProcessResult` in `ayaka-bindings-types`). -/
structure LineProcessResult where
  locals : VarMap
  vars : VarMap

/-- Plugin dispatch surface consumed by the engine: text-command handlers
(by command name, receiving the evaluated argument strings and returning the
text-process result's `ActionText`), line-command handlers (receiving the
cursor and the full property map), and the ordered action-postprocess chain.
The per-session constants passed in the Rust dispatch contexts (game
properties, frontend kind) are closed over by the handler functions. -/
structure Runtime where
  textModule : String → Option (List String → Except String ActionText)
  lineModule :
    String → Option (RawContext → VarMap → Except String LineProcessResult)
  actionModules : List (RawContext → ActionText → Except String ActionText)

mutual

/-- Interpretation of a sub-text node (`Context::parse_sub_text`): literals
append to the fragment accumulator; a command first evaluates its arguments
to strings, then dispatches — `res` resolves a resource (only when a locale
is given), `var` resolves a local variable, and any other name goes through
the text-command modules, an absent module contributing nothing.  Missing
resource or variable keys contribute nothing (the Rust code logs a warning
at that point). -/
def parseSubText (g : Game) (rt : Runtime) (loc : Option Locale)
    (locals : VarMap) : SubText → Except String ActionText
  | .chr c => .ok (ActionText.default.pushBackChars (String.singleton c))
  | .str s => .ok (ActionText.default.pushBackChars s)
  | .cmd name args => do
      let argStrings ← parseSubTextArgs g rt loc locals args
      match name with
      | "res" =>
          match loc with
          | some l =>
              match argStrings.head? with
              | some n =>
                  match findRes g l n with
                  | some v => .ok (ActionText.default.pushBackBlock v.getStr)
                  | none => .ok ActionText.default
              | none => .ok ActionText.default
          | none => .ok ActionText.default
      | "var" =>
          match argStrings.head? with
          | some n =>
              match lookup locals n with
              | some v => .ok (ActionText.default.pushBackBlock v.getStr)
              | none => .ok ActionText.default
          | none => .ok ActionText.default
      | _ =>
          match rt.textModule name with
          | some handler => do
              let res ← handler argStrings
              .ok { ActionText.default with
                text := res.text, vars := extend [] res.vars }
          | none => .ok ActionText.default

/-- Evaluation of command arguments: each argument sub-text is interpreted
and flattened to a string. -/
def parseSubTextArgs (g : Game) (rt : Runtime) (loc : Option Locale)
    (locals : VarMap) : List SubText → Except String (List String)
  | [] => .ok []
  | a :: rest => do
      let s ← parseSubText g rt loc locals a
      let r ← parseSubTextArgs g rt loc locals rest
      .ok (s.toString :: r)

end

/-- Concatenation of the interpreted sub-texts of a script text
(the loop body of `Context::call`). -/
def callAux (g : Game) (rt : Runtime) (locals : VarMap) :
    List SubText → Except String String
  | [] => .ok ""
  | s :: rest => do
      let a ← parseSubText g rt none locals s
      let r ← callAux g rt locals rest
      .ok (a.toString ++ r)

/-- Evaluation of a script text against the given locals (`Context::call`),
used to compute the next paragraph id: sub-texts are interpreted without a
locale, concatenated, and the result is trimmed. -/
def call (g : Game) (rt : Runtime) (locals : VarMap) (t : Text) :
    Except String String := do
  let s ← callAux g rt locals t.sub_texts
  .ok s.trim

/-- Processing of the found line (`Context::process_line`): `Empty` and
`Text` lines are untouched; a `Switch` line recomputes the enabled flags
from the stringified-index locals (absent means enabled, otherwise boolean
coercion); a `Custom` line clears the vars buffer and dispatches its leading
key through the line-command modules, merging the returned locals into the
cursor's locals and the returned vars into the buffer — a missing handler is
the error "Cannot find command ...".  The second component carries the error
of the Rust `Result`; the state keeps the mutations made before a failure. -/
def processLine (rt : Runtime) (line : Line) (st : CtxState) :
    CtxState × Option String :=
  match line with
  | .empty => (st, none)
  | .text _ => (st, none)
  | .switch switches =>
      let sw := (List.range switches.length).map (fun i =>
        match lookup st.ctx.locals (Nat.repr i) with
        | none => true
        | some .unit => true
        | some v => v.getBool)
      ({ st with switches := sw }, none)
  | .custom props =>
      let st1 := { st with vars := ([] : VarMap) }
      match props.head? with
      | none => (st1, none)
      | some (cmd, _) =>
          match rt.lineModule cmd with
          | some handler =>
              match handler st1.ctx props with
              | .ok res =>
                  ({ st1 with
                      ctx := { st1.ctx with
                        locals := extend st1.ctx.locals res.locals },
                      vars := extend st1.vars res.vars }, none)
              | .error e => (st1, some e)
          | none => (st1, some ("Cannot find command " ++ cmd))

/-- Log messages emitted by the forward step: the recoverable error log for a
missing top-level paragraph, the logged-and-defaulted failure of the
next-paragraph evaluation, and the logged-and-defaulted failure of
`process_line`. -/
inductive LogMsg where
  | cannotFindPara (name : String)
  | cannotGetNextPara (err : String)
  | parseLineError (err : String)
deriving DecidableEq

/-- Outcome of the `next_run` loop: fuel exhaustion (the Rust loop has no
fuel; this models a run that has not yet terminated), the early `return None`
("no more content"), or the found line with the state and log at the break. -/
inductive LoopResult where
  | fuelOut
  | ended (st : CtxState) (log : List LogMsg)
  | found (line : Line) (st : CtxState) (log : List LogMsg)

/-- Fuel-indexed loop of `Context::next_run`: resolve the paragraph in the
base language; if it has a line at `cur_act`, break with it; if it exists
but is exhausted, evaluate `next` (a failure is logged and defaulted to the
empty id), reset `cur_act` and loop; if it is missing at top level
(`cur_base_para == cur_para`), return the "no more content" outcome, logging
only when the paragraph id is non-empty; otherwise promote `cur_base_para`
to `cur_para` and loop. -/
def nextRunLoop (g : Game) (rt : Runtime) :
    Nat → CtxState → List LogMsg → LoopResult
  | 0, _, _ => .fuelOut
  | fuel + 1, st, log =>
      match findPara g g.base_lang st.ctx.cur_base_para st.ctx.cur_para with
      | some p =>
          match p.texts.get? st.ctx.cur_act with
          | some line => .found line st log
          | none =>
              let nxt : String × List LogMsg :=
                match p.next with
                | some t =>
                    match call g rt st.ctx.locals t with
                    | .ok s => (s, log)
                    | .error e => ("", log ++ [.cannotGetNextPara e])
                | none => ("", log)
              nextRunLoop g rt fuel
                { st with ctx := { st.ctx with cur_para := nxt.1, cur_act := 0 } }
                nxt.2
      | none =>
          if st.ctx.cur_base_para = st.ctx.cur_para then
            .ended st
              (if st.ctx.cur_para = "" then log
               else log ++ [.cannotFindPara st.ctx.cur_para])
          else
            nextRunLoop g rt fuel
              { st with ctx := { st.ctx with cur_base_para := st.ctx.cur_para } }
              log

/-- Forward step (`Context::next_run`): run the loop; on the found line run
`process_line` (whose error is logged and substituted with the unit default,
not surfaced), clone the cursor as the returned snapshot, then increment
`cur_act`.  The inner `none` is the "no more content" return of the Rust
function; the outer `none` only signals exhausted fuel. -/
def nextRun (g : Game) (rt : Runtime) (fuel : Nat) (st : CtxState)
    (log : List LogMsg) : Option (Option RawContext × CtxState × List LogMsg) :=
  match nextRunLoop g rt fuel st log with
  | .fuelOut => none
  | .ended st1 log1 => some (none, st1, log1)
  | .found line st1 log1 =>
      let pl := processLine rt line st1
      let log2 := match pl.2 with
        | some e => log1 ++ [.parseLineError e]
        | none => log1
      some (some pl.1.ctx,
        { pl.1 with ctx := { pl.1.ctx with cur_act := pl.1.ctx.cur_act + 1 } },
        log2)

/-- Fragment concatenation over the sub-texts of a text line (the loop of
`Context::parse_text`; the sub-actions' side-channel vars are dropped
there). -/
def parseTextAux (g : Game) (rt : Runtime) (loc : Locale) (locals : VarMap) :
    List SubText → Except String (List ActionLine)
  | [] => .ok []
  | s :: rest => do
      let a ← parseSubText g rt (some loc) locals s
      let r ← parseTextAux g rt loc locals rest
      .ok (a.text ++ r)

/-- Interpretation of a text line (`Context::parse_text`): character key from
the tag, character name from the alias or else the `ch_`-prefixed resource,
fragments from the interpreted sub-texts. -/
def parseText (g : Game) (rt : Runtime) (loc : Locale) (t : Text)
    (ctx : RawContext) : Except String ActionText := do
  let frags ← parseTextAux g rt loc ctx.locals t.sub_texts
  .ok { text := frags
        ch_key := t.ch_tag
        character := match t.ch_alias with
          | some a => some a
          | none =>
              (findRes g loc ("ch_" ++ t.ch_tag.getD "")).map RawValue.getStr
        vars := [] }

/-- Pairing of switch texts with the stored enabled flags
(`Context::parse_switches`). -/
def parseSwitches (switches : List Bool) (s : List String) : List Switch :=
  (s.zip switches).map (fun p => ⟨p.1, p.2⟩)

/-- Sequential application of the action-postprocess modules in registration
order. -/
def applyActionModules :
    List (RawContext → ActionText → Except String ActionText) →
    RawContext → ActionText → Except String ActionText
  | [], _, a => .ok a
  | m :: rest, ctx, a => do
      let a2 ← m ctx a
      applyActionModules rest ctx a2

/-- Postprocess chain plus the final trimming passes
(`Context::process_action_text`): modules run in order, then whitespace-only
fragments are popped from the back, then from the front. -/
def processActionText (rt : Runtime) (ctx : RawContext) (a : ActionText) :
    Except String ActionText := do
  let a2 ← applyActionModules rt.actionModules ctx a
  let t := (a2.text.reverse.dropWhile (fun l => l.asStr.trim.isEmpty)).reverse
  let t2 := t.dropWhile (fun l => l.asStr.trim.isEmpty)
  .ok { a2 with text := t2 }

/-- Per-locale rendering of a current line into an optional `Action` (the
closure inside `Context::get_action`); a failing text interpretation becomes
an absent side (the `.ok()` call in the Rust code). -/
def lineToAction (g : Game) (rt : Runtime) (st : CtxState) (loc : Locale)
    (ctx : RawContext) : Line → Option Action
  | .text t => ((parseText g rt loc t ctx).toOption).map Action.text
  | .switch switches => some (.switches (parseSwitches st.switches switches))
  | .custom _ => some (.custom st.vars)
  | .empty => none

/-- Materialization of the action at a cursor (`Context::get_action`): the
requested-locale and base-locale lines are looked up, each rendered (both
against the requested locale's resources), merged, and a text action then
goes through the postprocess chain. -/
def getAction (g : Game) (rt : Runtime) (st : CtxState) (loc : Locale)
    (ctx : RawContext) : Except String Action := do
  let lineP := (findPara g loc ctx.cur_base_para ctx.cur_para).bind
    (fun p => p.texts.get? ctx.cur_act)
  let lineB := (findPara g g.base_lang ctx.cur_base_para ctx.cur_para).bind
    (fun p => p.texts.get? ctx.cur_act)
  let act ← mergeAction (lineP.bind (lineToAction g rt st loc ctx))
    (lineB.bind (lineToAction g rt st loc ctx))
  match act with
  | .text a => do
      let a2 ← processActionText rt ctx a
      .ok (.text a2)
  | a => .ok a

theorem nextRunLoop_found (g : Game) (rt : Runtime) (fuel : Nat)
    (st : CtxState) (log : List LogMsg) (p : Paragraph) (line : Line)
    (hp : findPara g g.base_lang st.ctx.cur_base_para st.ctx.cur_para = some p)
    (hline : p.texts.get? st.ctx.cur_act = some line) :
    nextRunLoop g rt (fuel + 1) st log = .found line st log := by
  conv_lhs => unfold nextRunLoop
  simp only [hp, hline]

theorem nextRunLoop_missing_top (g : Game) (rt : Runtime) (fuel : Nat)
    (st : CtxState) (log : List LogMsg)
    (hmiss : findPara g g.base_lang st.ctx.cur_base_para st.ctx.cur_para = none)
    (heq : st.ctx.cur_base_para = st.ctx.cur_para) :
    nextRunLoop g rt (fuel + 1) st log = .ended st
      (if st.ctx.cur_para = "" then log
       else log ++ [.cannotFindPara st.ctx.cur_para]) := by
  conv_lhs => unfold nextRunLoop
  simp only [hmiss]
  rw [if_pos heq]

theorem nextRunLoop_missing_promote (g : Game) (rt : Runtime) (fuel : Nat)
    (st : CtxState) (log : List LogMsg)
    (hmiss : findPara g g.base_lang st.ctx.cur_base_para st.ctx.cur_para = none)
    (hne : st.ctx.cur_base_para ≠ st.ctx.cur_para) :
    nextRunLoop g rt (fuel + 1) st log = nextRunLoop g rt fuel
      { st with ctx := { st.ctx with cur_base_para := st.ctx.cur_para } } log := by
  conv_lhs => unfold nextRunLoop
  simp only [hmiss]
  rw [if_neg hne]

/-- C5: during an advance, a missing paragraph at top level
(`cur_base_para == cur_para`) terminates the step with the "no more content"
return — not an error — appending a missing-paragraph log message exactly
when the paragraph id is non-empty and leaving the state unchanged; a
missing paragraph away from top level promotes `cur_base_para` to `cur_para`
and continues the same run, invisibly to the caller (same result, no log). -/
theorem c5_missing_paragraph (g : Game) (rt : Runtime) (fuel : Nat)
    (st : CtxState) (log : List LogMsg)
    (hmiss : findPara g g.base_lang st.ctx.cur_base_para st.ctx.cur_para = none) :
    (st.ctx.cur_base_para = st.ctx.cur_para →
      nextRun g rt (fuel + 1) st log = some (none, st,
        if st.ctx.cur_para = "" then log
        else log ++ [.cannotFindPara st.ctx.cur_para])) ∧
    (st.ctx.cur_base_para ≠ st.ctx.cur_para →
      nextRun g rt (fuel + 1) st log = nextRun g rt fuel
        { st with ctx := { st.ctx with cur_base_para := st.ctx.cur_para } } log) := by
  constructor
  · intro heq
    unfold nextRun
    rw [nextRunLoop_missing_top g rt fuel st log hmiss heq]
  · intro hne
    unfold nextRun
    rw [nextRunLoop_missing_promote g rt fuel st log hmiss hne]

/-- Story fixture: a single paragraph `(p, p)` in the base locale `en`
holding the given single line. -/
def exGame (line : Line) : Game :=
  ⟨"en", [("en", [(("p", "p"), ⟨none, [line], none⟩)])], []⟩

/-- Runtime fixture with no modules installed. -/
def exRuntime : Runtime := ⟨fun _ => none, fun _ => none, []⟩

/-- Runtime fixture whose only line-command module handles `cmd`, returning
one local and one var. -/
def exHandlerRuntime : Runtime :=
  ⟨fun _ => none,
   fun name =>
     if name = "cmd" then
       some (fun _ _ => .ok ⟨[("l", .num 7)], [("v", .num 8)]⟩)
     else none,
   []⟩

/-- Context fixture sitting at `(p, p)` act 0 with empty locals. -/
def exState : CtxState := ⟨⟨"p", "p", 0, []⟩, [], []⟩

/-- C5 (witness): with an empty story, a cursor at `(p, p)` ends the run
logging the missing paragraph, and a cursor at `(a, b)` behaves as the same
run after promoting the base paragraph id to `b`. -/
theorem c5_missing_paragraph_witness :
    nextRun (⟨"en", [], []⟩ : Game) exRuntime 1 exState [] =
      some (none, exState, [.cannotFindPara "p"]) ∧
    nextRun (⟨"en", [], []⟩ : Game) exRuntime 2
        (⟨⟨"a", "b", 0, []⟩, [], []⟩ : CtxState) [] =
      nextRun (⟨"en", [], []⟩ : Game) exRuntime 1
        (⟨⟨"b", "b", 0, []⟩, [], []⟩ : CtxState) [] :=
  ⟨((c5_missing_paragraph (⟨"en", [], []⟩ : Game) exRuntime 0 exState []
      rfl).1 rfl),
   ((c5_missing_paragraph (⟨"en", [], []⟩ : Game) exRuntime 1
      (⟨⟨"a", "b", 0, []⟩, [], []⟩ : CtxState) [] rfl).2 (by decide))⟩

/-- C8: every successful advance step returns as its snapshot the cursor as
it stands after the found line has been processed by `process_line` and
before the act index is incremented; the session's own cursor after the step
is exactly that snapshot with `cur_act` one greater. -/
theorem c8_snapshot_pre_increment (g : Game) (rt : Runtime) (fuel : Nat)
    (st : CtxState) (log : List LogMsg) (snap : RawContext) (st' : CtxState)
    (log' : List LogMsg)
    (h : nextRun g rt fuel st log = some (some snap, st', log')) :
    st'.ctx = { snap with cur_act := snap.cur_act + 1 } ∧
    ∃ line st1 log1, nextRunLoop g rt fuel st log = .found line st1 log1 ∧
      snap = (processLine rt line st1).1.ctx := by
  unfold nextRun at h
  cases hl : nextRunLoop g rt fuel st log with
  | fuelOut =>
      rw [hl] at h
      exact absurd h (by simp)
  | ended st1 log1 =>
      rw [hl] at h
      simp at h
  | found line st1 log1 =>
      rw [hl] at h
      simp only [Option.some.injEq, Prod.mk.injEq] at h
      obtain ⟨hsnap, hst, hlog⟩ := h
      subst hsnap
      subst hst
      exact ⟨rfl, line, st1, log1, rfl, rfl⟩

/-- C8 (witness): the snapshot relation evaluated on a one-text-line story:
the step returns the act-0 snapshot and leaves the session cursor at act 1. -/
theorem c8_snapshot_pre_increment_witness :
    (⟨⟨"p", "p", 1, []⟩, [], []⟩ : CtxState).ctx =
      { (⟨"p", "p", 0, []⟩ : RawContext) with
        cur_act := (⟨"p", "p", 0, []⟩ : RawContext).cur_act + 1 } ∧
    ∃ line st1 log1,
      nextRunLoop (exGame (.text ⟨none, none, []⟩)) exRuntime 1 exState [] =
        .found line st1 log1 ∧
      (⟨"p", "p", 0, []⟩ : RawContext) = (processLine exRuntime line st1).1.ctx :=
  c8_snapshot_pre_increment (exGame (.text ⟨none, none, []⟩)) exRuntime 1
    exState [] ⟨"p", "p", 0, []⟩ ⟨⟨"p", "p", 1, []⟩, [], []⟩ [] rfl

/-- C2 (counterexample): a Custom line whose leading key has no registered
line-command handler does NOT fail the step: at this concrete input the step
still succeeds, returning the cursor snapshot, with the "Cannot find
command" error merely appended to the log (the model's only error surface —
`nextRun` offers the caller no error channel at all, the inner `Option` being
the "no more content" value and the outer one fuel exhaustion). -/
theorem c2_custom_dispatch_counterexample :
    nextRun (exGame (.custom [("cmd", RawValue.unit)])) exRuntime 1 exState [] =
      some (some ⟨"p", "p", 0, []⟩, ⟨⟨"p", "p", 1, []⟩, [], []⟩,
        [.parseLineError "Cannot find command cmd"]) := rfl

/-- C2 (amended): processing a Custom line whose leading key has no handler
makes `process_line` fail with "Cannot find command", but `next_run` logs
that error and substitutes the default: the step still returns the cursor
snapshot (locals untouched, the line's vars buffer left cleared).  When a
handler exists and succeeds, its returned locals are merged into the
cursor's locals and its returned vars (merged into the cleared buffer)
become the line's rendered `Custom` vars. -/
theorem c2_custom_dispatch (g : Game) (rt : Runtime) (fuel : Nat)
    (st : CtxState) (log : List LogMsg) (p : Paragraph) (cmd : String)
    (v : RawValue) (rest : VarMap)
    (hp : findPara g g.base_lang st.ctx.cur_base_para st.ctx.cur_para = some p)
    (hline : p.texts.get? st.ctx.cur_act = some (.custom ((cmd, v) :: rest))) :
    (rt.lineModule cmd = none →
      nextRun g rt (fuel + 1) st log =
        some (some st.ctx,
          { st with ctx := { st.ctx with cur_act := st.ctx.cur_act + 1 }, vars := ([] : VarMap) },
          log ++ [.parseLineError ("Cannot find command " ++ cmd)])) ∧
    (∀ handler res, rt.lineModule cmd = some handler →
      handler st.ctx ((cmd, v) :: rest) = .ok res →
      nextRun g rt (fuel + 1) st log =
        some (some { st.ctx with locals := extend st.ctx.locals res.locals },
          { st with ctx := { st.ctx with locals := extend st.ctx.locals res.locals, cur_act := st.ctx.cur_act + 1 }, vars := extend [] res.vars },
          log)) := by
  constructor
  · intro hnone
    unfold nextRun
    rw [nextRunLoop_found g rt fuel st log p _ hp hline]
    simp [processLine, hnone]
  · intro handler res hsome hok
    unfold nextRun
    rw [nextRunLoop_found g rt fuel st log p _ hp hline]
    simp [processLine, hsome, hok]

/-- C2 (witness): the handler branch evaluated concretely — the handler's
local `l` lands in the cursor's locals and its var `v` becomes the rendered
vars buffer. -/
theorem c2_custom_dispatch_witness :
    nextRun (exGame (.custom [("cmd", RawValue.unit)])) exHandlerRuntime 1
        exState [] =
      some (some ⟨"p", "p", 0, [("l", RawValue.num 7)]⟩,
        ⟨⟨"p", "p", 1, [("l", RawValue.num 7)]⟩, [], [("v", RawValue.num 8)]⟩,
        []) :=
  (c2_custom_dispatch (exGame (.custom [("cmd", RawValue.unit)]))
      exHandlerRuntime 0 exState [] ⟨none, [.custom [("cmd", RawValue.unit)]], none⟩
      "cmd" RawValue.unit [] rfl rfl).2
    (fun _ _ => .ok ⟨[("l", .num 7)], [("v", .num 8)]⟩)
    ⟨[("l", .num 7)], [("v", .num 8)]⟩ rfl rfl

/-- Modelled from the spec: the visited-cursor ledger of the `GlobalRecord`
(`ayaka-bindings-types`) — a set-like collection that `update` extends with
the produced cursor. -/
def grUpdate (gr : List RawContext) (ctx : RawContext) : List RawContext :=
  if ctx ∈ gr then gr else gr ++ [ctx]

/-- View-model state (`GameViewModel`): the current record's history, the
current raw context, the owned context state, and the global record's
visited ledger. -/
structure VMState where
  history : List RawContext
  current_raw_context : Option RawContext
  context : CtxState
  global_record : List RawContext

/-- Test for whether the base-locale line at a cursor is a `Text` line (the
`is_text` computation of `GameViewModel::push_history`; a missing line
counts as not-text via `unwrap_or_default`). -/
def lineIsText (g : Game) (ctx : RawContext) : Bool :=
  match (findPara g g.base_lang ctx.cur_base_para ctx.cur_para).bind
      (fun p => p.texts.get? ctx.cur_act) with
  | some (.text _) => true
  | _ => false

/-- History push (`GameViewModel::push_history`): the produced cursor is
appended to the current record's history exactly when the base-locale line
at that cursor is a `Text` line. -/
def pushHistory (g : Game) (vm : VMState) (ctx : RawContext) : VMState :=
  if lineIsText g ctx then { vm with history := vm.history ++ [ctx] } else vm

/-- Forward step of the view model (`GameViewModel::next_run`): run the
context's step; when it produces a cursor, push it to the history (text
lines only), update the global record's visited ledger, and store it as the
current raw context; the boolean tells whether a cursor was produced. -/
def vmNextRun (g : Game) (rt : Runtime) (fuel : Nat) (vm : VMState)
    (log : List LogMsg) : Option (Bool × VMState × List LogMsg) :=
  match nextRun g rt fuel vm.context log with
  | none => none
  | some (octx, st1, log1) =>
      match octx with
      | some ctx =>
          let vm1 := pushHistory g { vm with context := st1 } ctx
          let vm2 := { vm1 with global_record := grUpdate vm1.global_record ctx }
          some (true, { vm2 with current_raw_context := some ctx }, log1)
      | none =>
          some (false, { vm with context := st1, current_raw_context := none }, log1)

/-- Back navigation (`GameViewModel::next_back_run`): a history of length at
most one is a no-op returning failure; otherwise the last entry is popped,
the new last entry becomes the current raw context, and a clone of it with
`cur_act` incremented is installed as the context's cursor.  The `expect` on
the popped history still being non-empty is modelled as the `none` outcome
(it is unreachable, as the claim theorem shows). -/
def nextBackRun (vm : VMState) : Option (Bool × VMState) :=
  if vm.history.length ≤ 1 then some (false, vm)
  else
    match vm.history.dropLast.getLast? with
    | some last =>
        some (true,
          { vm with history := vm.history.dropLast, current_raw_context := some last, context := { vm.context with ctx := { last with cur_act := last.cur_act + 1 } } })
    | none => none

/-- C4: back navigation on a history of length at most one is a no-op
returning failure with the state unchanged; on a history of length at least
two it pops the last entry, installs the new last entry (which exists) with
`cur_act` incremented as the pending cursor, stores that entry as current,
and returns success; consequently a non-empty history never drops below
length one. -/
theorem c4_back_navigation (vm : VMState) :
    (vm.history.length ≤ 1 → nextBackRun vm = some (false, vm)) ∧
    (2 ≤ vm.history.length →
      ∃ last, vm.history.dropLast.getLast? = some last ∧
        nextBackRun vm = some (true,
          { vm with history := vm.history.dropLast, current_raw_context := some last, context := { vm.context with ctx := { last with cur_act := last.cur_act + 1 } } })) ∧
    (∀ b vm', nextBackRun vm = some (b, vm') →
      1 ≤ vm.history.length → 1 ≤ vm'.history.length) := by
  refine ⟨?_, ?_, ?_⟩
  · intro h
    unfold nextBackRun
    rw [if_pos h]
  · intro h2
    have hlen : vm.history.dropLast.length = vm.history.length - 1 :=
      List.length_dropLast _
    have hne : vm.history.dropLast ≠ [] := by
      intro hnil
      rw [hnil] at hlen
      simp only [List.length_nil] at hlen
      omega
    obtain ⟨last, hlast⟩ :=
      Option.isSome_iff_exists.mp (List.getLast?_isSome.mpr hne)
    refine ⟨last, hlast, ?_⟩
    unfold nextBackRun
    rw [if_neg (by omega)]
    simp only [hlast]
  · intro b vm' hrun h1
    unfold nextBackRun at hrun
    by_cases hle : vm.history.length ≤ 1
    · rw [if_pos hle] at hrun
      simp only [Option.some.injEq, Prod.mk.injEq] at hrun
      obtain ⟨-, hvm⟩ := hrun
      subst hvm
      exact h1
    · rw [if_neg hle] at hrun
      cases hlast : vm.history.dropLast.getLast? with
      | none =>
          rw [hlast] at hrun
          exact absurd hrun (by simp)
      | some last =>
          rw [hlast] at hrun
          simp only [Option.some.injEq, Prod.mk.injEq] at hrun
          obtain ⟨-, hvm⟩ := hrun
          subst hvm
          simp only [List.length_dropLast]
          omega

/-- Cursor fixture at act 0. -/
def exCursor0 : RawContext := ⟨"p", "p", 0, []⟩

/-- Cursor fixture at act 1. -/
def exCursor1 : RawContext := ⟨"p", "p", 1, []⟩

/-- C4 (witness): on a singleton history back navigation is the failing
no-op, and a successful pop from a two-entry history leaves one entry. -/
theorem c4_back_navigation_witness :
    nextBackRun ⟨[exCursor0], some exCursor0, exState, []⟩ =
      some (false, ⟨[exCursor0], some exCursor0, exState, []⟩) ∧
    (1 : Nat) ≤ ([exCursor0] : List RawContext).length :=
  ⟨(c4_back_navigation ⟨[exCursor0], some exCursor0, exState, []⟩).1 (by decide),
   (c4_back_navigation ⟨[exCursor0, exCursor1], some exCursor1, exState, []⟩).2.2
     true
     ⟨[exCursor0], some exCursor0,
       { exState with ctx := { exCursor0 with cur_act := exCursor0.cur_act + 1 } },
       []⟩
     (by rfl) (by decide)⟩

/-- C6: whenever the forward step produces a cursor, the view model appends
it to the history exactly when the base-locale line at that cursor is a
`Text` line, always updates the global record's visited ledger with it,
stores it as the current raw context, and adopts the stepped context
state. -/
theorem c6_history_text_only (g : Game) (rt : Runtime) (fuel : Nat)
    (vm : VMState) (log : List LogMsg) (ctx : RawContext) (st1 : CtxState)
    (log1 : List LogMsg)
    (hn : nextRun g rt fuel vm.context log = some (some ctx, st1, log1)) :
    vmNextRun g rt fuel vm log = some (true,
      { history := if lineIsText g ctx then vm.history ++ [ctx] else vm.history,
        current_raw_context := some ctx,
        context := st1,
        global_record := grUpdate vm.global_record ctx }, log1) := by
  unfold vmNextRun
  rw [hn]
  by_cases ht : lineIsText g ctx <;>
    simp [pushHistory, ht]

/-- C6 (witness): stepping a one-text-line story from an empty view model
appends the produced cursor to the history and to the visited ledger. -/
theorem c6_history_text_only_witness :
    vmNextRun (exGame (.text ⟨none, none, []⟩)) exRuntime 1
        ⟨[], none, exState, []⟩ [] =
      some (true, ⟨[exCursor0], some exCursor0,
        ⟨⟨"p", "p", 1, []⟩, [], []⟩, [exCursor0]⟩, []) :=
  c6_history_text_only (exGame (.text ⟨none, none, []⟩)) exRuntime 1
    ⟨[], none, exState, []⟩ [] exCursor0 ⟨⟨"p", "p", 1, []⟩, [], []⟩ [] rfl

end Ayaka
